import Mathlib

/-!
Verification of the Sovryn-Watcher core against its specification.

The JavaScript sources are shallowly embedded:
* `src/unnamed/part_000` (`PositionScanner`): `addPosition`, the body of the
  `processPositions` loop and the resolution behaviour of
  `loadActivePositions` are embedded as `addPosition`, `scanOk` /
  `scanIteration` and `PageResult`.
* `src/controller/liquidator.js` (`Liquidator`): `liquidate`,
  `handleLiqSuccess` and `handleLiqError` are embedded over an explicit
  state of the `liquidations` map and the wallet busy queue.
* `src/controller/arbitrage.js` (`Arbitrage`): `calcArbitrage`, the trade
  decision of `start`, `sendLiquidity` and `calculateProfit` are embedded
  with JavaScript numbers modelled as rationals (`Option ℚ` where `none`
  models NaN, as produced by `Number(undefined)`).

Maps keyed by `loanId` (plain JavaScript objects in the source) are
association lists `List (String × Loan)` with `lookupId`; a falsy `loanId`
is modelled by the empty string.
-/

namespace Sovryn

/-- One open loan position, as returned by `getActiveLoans`. `data` stands
for the protocol-specific fields the scanner passes through opaquely. -/
structure Loan where
  loanId : String
  loanToken : String
  maxLiquidatable : Nat
  data : Nat := 0
deriving DecidableEq

/-- A JavaScript object keyed by `loanId`, e.g. `positions` and
`liquidations`. -/
abbrev PosMap := List (String × Loan)

/-- Property read `m[k]` on a `loanId`-keyed object: `none` models a missing
(falsy) entry. -/
def lookupId (m : PosMap) (k : String) : Option Loan :=
  match m with
  | [] => none
  | (k', l) :: rest => if k' = k then some l else lookupId rest k

/-- Keyed insert-only union step: an entry whose `loanId` is already a key
is dropped, a new key is inserted. -/
def insertOnly (m : PosMap) (l : Loan) : PosMap :=
  match lookupId m l.loanId with
  | some _ => m
  | none => (l.loanId, l) :: m

/-- State of the `processPositions` loop: the cursor window
`[fromIdx, toIdx)` (the source's `from` / `to`) and the two shared maps. -/
structure ScanState where
  fromIdx : Nat
  toIdx : Nat
  positions : PosMap
  liquidations : PosMap
deriving DecidableEq

/-- One step of the loop body of `PositionScanner.addPosition`
(src/unnamed/part_000 lines 92-99): skip a falsy `loanId`; if the id is not
yet a key of `positions`, store the loan there and, when
`maxLiquidatable > 0`, also in `liquidations`. -/
def addPositionStep (st : ScanState) (l : Loan) : ScanState :=
  if l.loanId = "" then st
  else
    match lookupId st.positions l.loanId with
    | some _ => st
    | none =>
        { st with
          positions := (l.loanId, l) :: st.positions
          liquidations :=
            if 0 < l.maxLiquidatable then (l.loanId, l) :: st.liquidations
            else st.liquidations }

/-- `PositionScanner.addPosition` (src/unnamed/part_000 lines 91-101). -/
def addPosition (st : ScanState) (loans : List Loan) : ScanState :=
  loans.foldl addPositionStep st

/-- The value `loadActivePositions` resolves with
(src/unnamed/part_000 lines 65-85): the loan page on success, `undefined`
(`resolve()`) when `getActiveLoans` calls back with an error, and `false`
(`resolve(false)`) when the call throws. -/
inductive PageResult where
  | ok (loans : List Loan)
  | errCallback
  | errThrown
deriving DecidableEq

/-- One iteration of the `while (true)` body of
`PositionScanner.processPositions` (src/unnamed/part_000 lines 37-57) on a
successfully resolved page `loans`: `addPosition`, then either advance the
cursor window by `nrOfProcessingPositions` (non-empty page) or log the cycle
total, reset the cursor to `(0, pageSize)` and delete every key of
`positions` (empty page; `liquidations` is left untouched). -/
def scanOk (pageSize : Nat) (st : ScanState) (loans : List Loan) : ScanState :=
  if 0 < loans.length then
    { addPosition st loans with
      fromIdx := (addPosition st loans).toIdx
      toIdx := (addPosition st loans).toIdx + pageSize }
  else
    { addPosition st loans with fromIdx := 0, toIdx := pageSize, positions := [] }

/-- One iteration of `processPositions` on an arbitrary resolution of
`loadActivePositions`. `pos = false` (a thrown ledger call) is falsy, so
`addPosition` is skipped, and `false.length > 0` is `undefined > 0`, i.e.
false: the iteration takes the empty-page branch. `pos = undefined` (the
ledger call invoked its callback with an error) is also falsy, but reading
`pos.length` then throws a `TypeError`, which rejects the `async`
`processPositions` and terminates the loop: modelled as `Except.error`. -/
def scanIteration (pageSize : Nat) (st : ScanState) (res : PageResult) :
    Except String ScanState :=
  match res with
  | .ok loans => .ok (scanOk pageSize st loans)
  | .errThrown => .ok (scanOk pageSize st [])
  | .errCallback =>
      .error "TypeError: cannot read property length of undefined"

/-- The scanner's processing of a list of successfully resolved pages, in
order. -/
def scanPages (pageSize : Nat) (st : ScanState) (pages : List (List Loan)) :
    ScanState :=
  pages.foldl (scanOk pageSize) st

/-! ## Liquidator (src/controller/liquidator.js) -/

/-- The busy queue of the `"liquidator"` purpose: the set of in-flight
`(wallet address, loanId)` assignments. -/
abbrev BusyQueue := List (String × String)

/-- Modelled from the spec: `Wallet.addToQueue(purpose, walletAddress,
targetId)` of the Wallet Allocator (its module is not under src/; spec §4.2)
inserts the `(wallet, target)` pair into the busy set. -/
def addToQueue (q : BusyQueue) (wallet loanId : String) : BusyQueue :=
  (wallet, loanId) :: q

/-- Modelled from the spec: `Wallet.removeFromQueue(purpose, walletAddress,
targetId)` of the Wallet Allocator (its module is not under src/; spec §4.2)
removes the `(wallet, target)` pair from the busy set. -/
def removeFromQueue (q : BusyQueue) (wallet loanId : String) : BusyQueue :=
  match q with
  | [] => []
  | e :: rest =>
      if e.1 = wallet ∧ e.2 = loanId then removeFromQueue rest wallet loanId
      else e :: removeFromQueue rest wallet loanId

/-- Whether the pair `(wallet, loanId)` is in the busy queue. -/
def busyContains (q : BusyQueue) (wallet loanId : String) : Bool :=
  match q with
  | [] => false
  | e :: rest =>
      if e.1 = wallet ∧ e.2 = loanId then true else busyContains rest wallet loanId

/-- JavaScript `delete m[k]` on a `loanId`-keyed object. -/
def eraseKey (m : PosMap) (k : String) : PosMap :=
  match m with
  | [] => []
  | (k', l) :: rest =>
      if k' = k then eraseKey rest k else (k', l) :: eraseKey rest k

/-- The state the Liquidator mutates: the shared `liquidations` map and the
wallet busy queue. -/
structure LiqState where
  liquidations : PosMap
  busy : BusyQueue
deriving DecidableEq

/-- `Liquidator.liquidate` up to dispatch (src/controller/liquidator.js
lines 66-78): mark the wallet busy for this loan and unconditionally delete
the candidate from `liquidations`, before the liquidation transaction's
outcome is known. -/
def liquidate (st : LiqState) (loanId wallet : String) : LiqState :=
  { liquidations := eraseKey st.liquidations loanId
    busy := addToQueue st.busy wallet loanId }

/-- `Liquidator.handleLiqSuccess` (src/controller/liquidator.js lines
92-96): release the wallet from the busy queue and notify the operator
channel; `liquidations` is not touched. -/
def handleLiqSuccess (st : LiqState) (wallet loanId txHash : String) :
    LiqState × List String :=
  ({ st with busy := removeFromQueue st.busy wallet loanId },
   ["liquidation of loan " ++ loanId ++ " successful. " ++ txHash])

/-- `Liquidator.handleLiqError` (src/controller/liquidator.js lines
103-110): release the wallet from the busy queue, re-query the position
(`updatedMax` is the re-queried `maxLiquidatable`), and message the
operator channel only when `updatedMax > 0`; `liquidations` is not
touched. -/
def handleLiqError (st : LiqState) (wallet loanId : String) (updatedMax : Nat) :
    LiqState × List String :=
  ({ st with busy := removeFromQueue st.busy wallet loanId },
   if 0 < updatedMax then ["liquidation of loan " ++ loanId ++ " failed."]
   else [])

/-- A full dispatch of one candidate: `liquidate`, then the success or
failure handler on the settled transaction (`success = true` for the `.then`
branch, `false` for the `.catch` branch with re-queried eligibility
`updatedMax`). -/
def liquidateAndHandle (st : LiqState) (loanId wallet txHash : String)
    (success : Bool) (updatedMax : Nat) : LiqState × List String :=
  let st1 := liquidate st loanId wallet
  if success then handleLiqSuccess st1 wallet loanId txHash
  else handleLiqError st1 wallet loanId updatedMax

/-! ## Arbitrage (src/controller/arbitrage.js) -/

/-- `Arbitrage.calcArbitrage` (src/controller/arbitrage.js lines 65-77):
returns `min p1 p2` when `|p1 - p2| / min p1 p2 * 100 >= threshold`, else
`undefined` (`none`). The source's consts `smallerAmount` and `arbitrage`
are inlined; JavaScript float arithmetic is modelled over ℚ. -/
def calcArbitrage (p1 p2 threshold : ℚ) : Option ℚ :=
  if threshold ≤ |p1 - p2| / min p1 p2 * 100 then some (min p1 p2) else none

/-- The trade dispatched by one round of `Arbitrage.start`: `buyDoc s` is
`sendLiquidity(toWei(s), "Doc")` and `buyRbtc s` is
`sendLiquidity(toWei(s), "Rbtc")`; `size` is in Ether units. -/
inductive TradeDecision where
  | noTrade
  | buyDoc (size : ℚ)
  | buyRbtc (size : ℚ)
deriving DecidableEq

/-- The decision part of one round of `Arbitrage.start`
(src/controller/arbitrage.js lines 43-52): `arb` is set only when both
prices are positive; `arb && arb == p[0]` sends `p[0]` of Doc, otherwise
`arb && arb == p[1]` sends `this.amount` of RBtc. `amount` is the fixed
notional `this.amount`; `p0` is the AMM quote, `p1` the oracle quote. -/
def startDecision (amount p0 p1 threshold : ℚ) : TradeDecision :=
  if 0 < p0 ∧ 0 < p1 then
    match calcArbitrage p0 p1 threshold with
    | some arb =>
        if arb ≠ 0 ∧ arb = p0 then .buyDoc p0
        else if arb ≠ 0 ∧ arb = p1 then .buyRbtc amount
        else .noTrade
    | none => .noTrade
  else .noTrade

/-- The settlement of the swap transaction submitted by `sendLiquidity`. -/
inductive SwapOutcome where
  | success (tx : String)
  | failure
deriving DecidableEq

/-- What one call of `Arbitrage.sendLiquidity` did: whether `convertByPath`
was submitted, the operator-channel messages sent, the uncaught exception
thrown inside the web3 callback (if any), and the fate of the returned
promise — `some v` when it settles via `resolve(v)` (`some none` models
`resolve()`), `none` when no `resolve` is ever reached so the promise
never settles and the `await` in `start` blocks forever. -/
structure LiqSend where
  swapSubmitted : Bool
  operatorMsgs : List String
  uncaughtError : Option String
  resolvedWith : Option (Option String)
deriving DecidableEq

/-- `Arbitrage.sendLiquidity` (src/controller/arbitrage.js lines 154-195):
`pathRes` is the `conversionPath` callback's input (`none` for a truthy
`error` or a falsy `result`). In the abort branch
(`error || !result || result.length != 3`) the first statement logs
`"error loading conversion path from " + contract._address + ...`, but
`contract` is not declared in `sendLiquidity` — only `contract1` and
`contract2` are; the line is copy-pasted from the price-query helpers
where `contract` is a parameter — so evaluating it throws a
ReferenceError inside the asynchronous callback, outside the executor's
try/catch, before `return resolve()` is reached: no swap is submitted, no
operator message is sent, and the promise never settles. Otherwise
`convertByPath` is submitted and the promise resolves with the transaction
on success and with no value on failure; no path sends an operator
message. -/
def sendLiquidity (pathRes : Option (List String)) (outcome : SwapOutcome) :
    LiqSend :=
  match pathRes with
  | none =>
      { swapSubmitted := false, operatorMsgs := [],
        uncaughtError := some "ReferenceError: contract is not defined",
        resolvedWith := none }
  | some path =>
      if path.length ≠ 3 then
        { swapSubmitted := false, operatorMsgs := [],
          uncaughtError := some "ReferenceError: contract is not defined",
          resolvedWith := none }
      else
        match outcome with
        | .success tx =>
            { swapSubmitted := true, operatorMsgs := [],
              uncaughtError := none, resolvedWith := some (some tx) }
        | .failure =>
            { swapSubmitted := true, operatorMsgs := [],
              uncaughtError := none, resolvedWith := some none }

/-- `Arbitrage.calculateProfit` (src/controller/arbitrage.js lines 197-242)
on a decoded `Conversion` event. JavaScript numbers are modelled as
`Option ℚ` with `none` for NaN: `Number(btcPriceFeed)` is NaN when the
`btcPriceFeed` argument is `undefined` (`none`), and NaN propagates through
`/`, `*` and `-`, so the computed (and persisted) profit is then NaN.
`amount` is `this.amount` (nonzero), `fromTokenIsRbtc` the comparison
`fromToken.toLowerCase() === conf.testTokenRBTC.toLowerCase()`, and
`fromAmount` / `toAmount` the event amounts in Ether units. -/
def calculateProfit (amount : ℚ) (btcPriceFeed : Option ℚ)
    (fromTokenIsRbtc : Bool) (fromAmount toAmount : ℚ) : Option ℚ :=
  match btcPriceFeed with
  | none => none
  | some pf =>
      let priceFeed := pf / amount
      let toAmountWithPFeed :=
        if fromTokenIsRbtc then fromAmount * priceFeed
        else fromAmount / priceFeed
      some (toAmount - toAmountWithPFeed)

/-- The call site `Arbitrage.start` line 54: `this.calculateProfit(res)`
passes only the transaction result, so the `btcPriceFeed` parameter is
`undefined` (`none`); `this.amount` is `0.010`. -/
def calculateProfitAsCalled (fromTokenIsRbtc : Bool)
    (fromAmount toAmount : ℚ) : Option ℚ :=
  calculateProfit (1/100) none fromTokenIsRbtc fromAmount toAmount

/-! ## Lemmas about `addPosition` -/

theorem addPositionStep_empty_id (st : ScanState) (l : Loan)
    (h : l.loanId = "") : addPositionStep st l = st := by
  simp [addPositionStep, h]

theorem addPositionStep_toIdx (st : ScanState) (l : Loan) :
    (addPositionStep st l).toIdx = st.toIdx := by
  unfold addPositionStep
  by_cases h : l.loanId = ""
  · rw [if_pos h]
  · rw [if_neg h]
    cases hl : lookupId st.positions l.loanId <;> rfl

theorem addPosition_toIdx (loans : List Loan) :
    ∀ st : ScanState, (addPosition st loans).toIdx = st.toIdx := by
  induction loans with
  | nil => intro st; rfl
  | cons l rest ih =>
    intro st
    have e1 : addPosition st (l :: rest) = addPosition (addPositionStep st l) rest := rfl
    rw [e1, ih, addPositionStep_toIdx]

theorem addPositionStep_positions (st : ScanState) (l : Loan)
    (h : l.loanId ≠ "") :
    (addPositionStep st l).positions = insertOnly st.positions l := by
  unfold addPositionStep insertOnly
  rw [if_neg h]
  cases hl : lookupId st.positions l.loanId <;> rfl

theorem addPosition_positions_eq (loans : List Loan) :
    ∀ st : ScanState, (∀ l ∈ loans, l.loanId ≠ "") →
      (addPosition st loans).positions = loans.foldl insertOnly st.positions := by
  induction loans with
  | nil => intro st _; rfl
  | cons l rest ih =>
    intro st hval
    have hl : l.loanId ≠ "" := hval l (List.mem_cons_self l rest)
    have hrest : ∀ x ∈ rest, x.loanId ≠ "" :=
      fun x hx => hval x (List.mem_cons_of_mem l hx)
    have e1 : addPosition st (l :: rest) = addPosition (addPositionStep st l) rest := rfl
    rw [e1, ih _ hrest, addPositionStep_positions st l hl, List.foldl_cons]

theorem addPosition_positions_mono (loans : List Loan) :
    ∀ (st : ScanState) (k : String) (v : Loan),
      lookupId st.positions k = some v →
      lookupId (addPosition st loans).positions k = some v := by
  induction loans with
  | nil => intro st k v h; exact h
  | cons l rest ih =>
    intro st k v h
    have e1 : addPosition st (l :: rest) = addPosition (addPositionStep st l) rest := rfl
    rw [e1]
    apply ih
    unfold addPositionStep
    by_cases h1 : l.loanId = ""
    · rw [if_pos h1]; exact h
    · rw [if_neg h1]
      cases hl : lookupId st.positions l.loanId with
      | some w => exact h
      | none =>
        have hk : ¬l.loanId = k := by
          intro e
          rw [e] at hl
          rw [hl] at h
          exact Option.noConfusion h
        show lookupId ((l.loanId, l) :: st.positions) k = some v
        simp only [lookupId, if_neg hk]
        exact h

theorem addPosition_no_empty_key (loans : List Loan) :
    ∀ st : ScanState,
      (lookupId st.positions "" = none →
        lookupId (addPosition st loans).positions "" = none)
    ∧ (lookupId st.liquidations "" = none →
        lookupId (addPosition st loans).liquidations "" = none) := by
  induction loans with
  | nil => intro st; exact ⟨id, id⟩
  | cons l rest ih =>
    intro st
    have e1 : addPosition st (l :: rest) = addPosition (addPositionStep st l) rest := rfl
    constructor
    · intro h
      rw [e1]
      apply (ih (addPositionStep st l)).1
      unfold addPositionStep
      by_cases h1 : l.loanId = ""
      · rw [if_pos h1]; exact h
      · rw [if_neg h1]
        cases hl : lookupId st.positions l.loanId with
        | some w => exact h
        | none =>
          show lookupId ((l.loanId, l) :: st.positions) "" = none
          simp only [lookupId, if_neg h1]
          exact h
    · intro h
      rw [e1]
      apply (ih (addPositionStep st l)).2
      unfold addPositionStep
      by_cases h1 : l.loanId = ""
      · rw [if_pos h1]; exact h
      · rw [if_neg h1]
        cases hl : lookupId st.positions l.loanId with
        | some w => exact h
        | none =>
          show lookupId
              (if 0 < l.maxLiquidatable then (l.loanId, l) :: st.liquidations
                else st.liquidations) "" = none
          by_cases hm : 0 < l.maxLiquidatable
          · rw [if_pos hm]; simp only [lookupId, if_neg h1]; exact h
          · rw [if_neg hm]; exact h

theorem addPosition_liq_change (loans : List Loan) :
    ∀ (st : ScanState) (k : String),
      lookupId (addPosition st loans).liquidations k ≠ lookupId st.liquidations k →
      lookupId st.positions k = none ∧
        (lookupId (addPosition st loans).positions k).isSome = true := by
  induction loans with
  | nil => intro st k h; exact absurd rfl h
  | cons l rest ih =>
    intro st k h
    have e1 : addPosition st (l :: rest) = addPosition (addPositionStep st l) rest := rfl
    by_cases h1 : l.loanId = ""
    · rw [e1, addPositionStep_empty_id st l h1] at h ⊢
      exact ih st k h
    · cases hl : lookupId st.positions l.loanId with
      | some w =>
        have e2 : addPositionStep st l = st := by
          unfold addPositionStep; rw [if_neg h1, hl]
        rw [e1, e2] at h ⊢
        exact ih st k h
      | none =>
        have hpos1 : (addPositionStep st l).positions = (l.loanId, l) :: st.positions := by
          unfold addPositionStep; rw [if_neg h1, hl]
        have hliq1 : (addPositionStep st l).liquidations =
            (if 0 < l.maxLiquidatable then (l.loanId, l) :: st.liquidations
              else st.liquidations) := by
          unfold addPositionStep; rw [if_neg h1, hl]
        by_cases hk : l.loanId = k
        · subst hk
          refine ⟨hl, ?_⟩
          have hsome : lookupId (addPositionStep st l).positions l.loanId = some l := by
            rw [hpos1]; simp [lookupId]
          rw [e1, addPosition_positions_mono rest (addPositionStep st l) l.loanId l hsome]
          rfl
        · have hliqk : lookupId (addPositionStep st l).liquidations k =
              lookupId st.liquidations k := by
            rw [hliq1]
            by_cases hm : 0 < l.maxLiquidatable
            · rw [if_pos hm]; simp only [lookupId, if_neg hk]
            · rw [if_neg hm]
          rw [e1] at h ⊢
          have h2 : lookupId (addPosition (addPositionStep st l) rest).liquidations k ≠
              lookupId (addPositionStep st l).liquidations k := by
            rw [hliqk]; exact h
          obtain ⟨ha, hb⟩ := ih (addPositionStep st l) k h2
          refine ⟨?_, hb⟩
          rw [hpos1] at ha
          simp only [lookupId, if_neg hk] at ha
          exact ha

theorem addPosition_liq_subset (loans : List Loan) :
    ∀ st : ScanState,
      (∀ k, (lookupId st.liquidations k).isSome = true →
        (lookupId st.positions k).isSome = true) →
      ∀ k, (lookupId (addPosition st loans).liquidations k).isSome = true →
        (lookupId (addPosition st loans).positions k).isSome = true := by
  induction loans with
  | nil => intro st h; exact h
  | cons l rest ih =>
    intro st h
    have e1 : addPosition st (l :: rest) = addPosition (addPositionStep st l) rest := rfl
    rw [e1]
    apply ih
    intro k hk
    by_cases h1 : l.loanId = ""
    · rw [addPositionStep_empty_id st l h1] at hk ⊢
      exact h k hk
    · cases hl : lookupId st.positions l.loanId with
      | some w =>
        have e2 : addPositionStep st l = st := by
          unfold addPositionStep; rw [if_neg h1, hl]
        rw [e2] at hk ⊢
        exact h k hk
      | none =>
        have hpos1 : (addPositionStep st l).positions = (l.loanId, l) :: st.positions := by
          unfold addPositionStep; rw [if_neg h1, hl]
        have hliq1 : (addPositionStep st l).liquidations =
            (if 0 < l.maxLiquidatable then (l.loanId, l) :: st.liquidations
              else st.liquidations) := by
          unfold addPositionStep; rw [if_neg h1, hl]
        rw [hpos1]
        by_cases hk2 : l.loanId = k
        · simp [lookupId, hk2]
        · simp only [lookupId, if_neg hk2]
          apply h
          rw [hliq1] at hk
          by_cases hm : 0 < l.maxLiquidatable
          · rw [if_pos hm] at hk
            simp only [lookupId, if_neg hk2] at hk
            exact hk
          · rw [if_neg hm] at hk
            exact hk

/-! ## The run of one scan cycle -/

/-- The scanner state at the start of a scan cycle: cursor window
`(0, pageSize)`; `positions` is empty (cleared by the previous reset) while
`liquidations` persists. -/
def initialScan (pageSize : Nat) (liq0 : PosMap) : ScanState :=
  { fromIdx := 0, toIdx := pageSize, positions := [], liquidations := liq0 }

theorem scanPages_run (ps : Nat) (pages : List (List Loan)) :
    ∀ st : ScanState, (∀ p ∈ pages, p ≠ []) →
      (∀ p ∈ pages, ∀ l ∈ p, l.loanId ≠ "") →
      st.toIdx = st.fromIdx + ps →
      (scanPages ps st pages).positions = pages.flatten.foldl insertOnly st.positions
    ∧ (scanPages ps st pages).fromIdx = st.fromIdx + pages.length * ps
    ∧ (scanPages ps st pages).toIdx = st.fromIdx + pages.length * ps + ps := by
  induction pages with
  | nil =>
    intro st _ _ hc
    exact ⟨rfl, by simp [scanPages], by simpa [scanPages] using hc⟩
  | cons p rest ih =>
    intro st hne hval hc
    have hp : 0 < p.length := List.length_pos.mpr (hne p (List.mem_cons_self p rest))
    have hpval : ∀ l ∈ p, l.loanId ≠ "" := hval p (List.mem_cons_self p rest)
    have hne2 : ∀ q ∈ rest, q ≠ [] := fun q hq => hne q (List.mem_cons_of_mem p hq)
    have hval2 : ∀ q ∈ rest, ∀ l ∈ q, l.loanId ≠ "" :=
      fun q hq => hval q (List.mem_cons_of_mem p hq)
    have e1 : scanPages ps st (p :: rest) = scanPages ps (scanOk ps st p) rest := rfl
    have hposOk : (scanOk ps st p).positions = p.foldl insertOnly st.positions := by
      unfold scanOk
      rw [if_pos hp]
      exact addPosition_positions_eq p st hpval
    have hfromOk : (scanOk ps st p).fromIdx = st.fromIdx + ps := by
      unfold scanOk
      rw [if_pos hp]
      show (addPosition st p).toIdx = st.fromIdx + ps
      rw [addPosition_toIdx, hc]
    have htoOk : (scanOk ps st p).toIdx = st.fromIdx + ps + ps := by
      unfold scanOk
      rw [if_pos hp]
      show (addPosition st p).toIdx + ps = st.fromIdx + ps + ps
      rw [addPosition_toIdx, hc]
    have hc2 : (scanOk ps st p).toIdx = (scanOk ps st p).fromIdx + ps := by
      rw [hfromOk, htoOk]
    obtain ⟨h1, h2, h3⟩ := ih (scanOk ps st p) hne2 hval2 hc2
    refine ⟨?_, ?_, ?_⟩
    · rw [e1, h1, hposOk, List.flatten_cons, List.foldl_append]
    · rw [e1, h2, hfromOk]
      simp only [List.length_cons]
      ring
    · rw [e1, h3, hfromOk]
      simp only [List.length_cons]
      ring

/-! ## Concrete positions used in counterexamples and witnesses -/

/-- A loan that is eligible for liquidation. -/
def loanEligible : Loan := { loanId := "A", loanToken := "doc", maxLiquidatable := 5 }

/-- The scanner state at the start of a cycle with page size 10 and empty
maps. -/
def freshScan : ScanState :=
  { fromIdx := 0, toIdx := 10, positions := [], liquidations := [] }

/-- One full scan cycle from `freshScan`: a non-empty page holding only
`loanEligible`, then the terminating empty page (the end-of-cycle reset). -/
def cycleEndState : ScanState := scanOk 10 (scanOk 10 freshScan [loanEligible]) []

/-! ## Claims about the Position Scanner -/

/-- Claim C1 (code bug): the claim says every failed page query — the
ledger call invoking its callback with an error as well as throwing — is
treated as an empty page and never terminates the `processPositions` loop.
The thrown path (`resolve(false)`) indeed behaves exactly as the empty page;
but the error-callback path resolves `undefined`, and the loop body then
evaluates `pos.length`, which throws a `TypeError` that rejects the async
`processPositions` and terminates the loop. -/
theorem C1_failed_page_query (pageSize : Nat) (st : ScanState) :
    scanIteration pageSize st .errCallback =
      .error "TypeError: cannot read property length of undefined"
  ∧ scanIteration pageSize st .errThrown = .ok (scanOk pageSize st []) :=
  ⟨rfl, rfl⟩

/-- Claim C2 counterexample: after one scan cycle that found the eligible
loan `"A"` followed by the end-of-cycle reset, `"A"` is a key of
`liquidations` but not of `positions`: the claim that every key of
`liquidations` is a key of `positions` even immediately after the reset is
false. -/
theorem C2_reset_breaks_inclusion :
    (lookupId cycleEndState.liquidations "A").isSome = true
  ∧ lookupId cycleEndState.positions "A" = none := by
  exact ⟨by decide, by decide⟩

/-- Claim C2 (amended): while a scan cycle is in progress the inclusion
holds — `addPosition` writes `positions` and `liquidations` atomically per
page, so it preserves "every key of `liquidations` is a key of
`positions`"; the inclusion does not survive the end-of-cycle reset, which
clears `positions` but leaves `liquidations` untouched. -/
theorem C2_addPosition_preserves_inclusion (loans : List Loan) (st : ScanState)
    (h : ∀ k, (lookupId st.liquidations k).isSome = true →
      (lookupId st.positions k).isSome = true) :
    ∀ k, (lookupId (addPosition st loans).liquidations k).isSome = true →
      (lookupId (addPosition st loans).positions k).isSome = true :=
  addPosition_liq_subset loans st h

/-- Witness for C2: the preservation theorem applied to the empty starting
state and the page `[loanEligible]` at the key `"A"`. -/
theorem C2_addPosition_preserves_inclusion_witness :
    (lookupId (addPosition freshScan [loanEligible]).positions "A").isSome = true :=
  C2_addPosition_preserves_inclusion [loanEligible] freshScan
    (fun k hk => by simp [freshScan, lookupId] at hk) "A" (by decide)

/-- Claim C10: `addPosition` skips an entry whose `loanId` is falsy, so it
is inserted into neither map; absence of the falsy key is preserved in both
maps; and `liquidations` changes at a key only when that key is newly
inserted into `positions` (it was absent before and is present after). -/
theorem C10_addPosition_guards (st : ScanState) (loans : List Loan) :
    (∀ l : Loan, l.loanId = "" → addPositionStep st l = st)
  ∧ (lookupId st.positions "" = none →
      lookupId (addPosition st loans).positions "" = none)
  ∧ (lookupId st.liquidations "" = none →
      lookupId (addPosition st loans).liquidations "" = none)
  ∧ (∀ k, lookupId (addPosition st loans).liquidations k ≠
        lookupId st.liquidations k →
      lookupId st.positions k = none ∧
        (lookupId (addPosition st loans).positions k).isSome = true) :=
  ⟨fun l h => addPositionStep_empty_id st l h,
   (addPosition_no_empty_key loans st).1,
   (addPosition_no_empty_key loans st).2,
   fun k h => addPosition_liq_change loans st k h⟩

/-- Claim C4: over one scan cycle — non-empty pages whose entries all carry
a `loanId`, followed by one empty page — after any prefix of `i` pages the
`positions` map is the keyed insert-only union of the entries returned so
far (an existing `loanId` is never overwritten, and `positions` is not
cleared mid-cycle), with the cursor at `(i * pageSize, i * pageSize +
pageSize)`; the terminating empty page then clears `positions`, resets the
cursor to `(0, pageSize)` and leaves `liquidations` unchanged. -/
theorem C4_pagination (ps : Nat) (pages : List (List Loan)) (liq0 : PosMap)
    (hne : ∀ p ∈ pages, p ≠ [])
    (hval : ∀ p ∈ pages, ∀ l ∈ p, l.loanId ≠ "") :
    (∀ i, i ≤ pages.length →
        (scanPages ps (initialScan ps liq0) (pages.take i)).positions
          = (pages.take i).flatten.foldl insertOnly []
      ∧ (scanPages ps (initialScan ps liq0) (pages.take i)).fromIdx = i * ps
      ∧ (scanPages ps (initialScan ps liq0) (pages.take i)).toIdx = i * ps + ps)
  ∧ (scanOk ps (scanPages ps (initialScan ps liq0) pages) []).positions = []
  ∧ (scanOk ps (scanPages ps (initialScan ps liq0) pages) []).fromIdx = 0
  ∧ (scanOk ps (scanPages ps (initialScan ps liq0) pages) []).toIdx = ps
  ∧ (scanOk ps (scanPages ps (initialScan ps liq0) pages) []).liquidations
      = (scanPages ps (initialScan ps liq0) pages).liquidations := by
  refine ⟨?_, rfl, rfl, rfl, rfl⟩
  intro i hi
  have hne2 : ∀ p ∈ pages.take i, p ≠ [] :=
    fun p hp => hne p (List.take_subset i pages hp)
  have hval2 : ∀ p ∈ pages.take i, ∀ l ∈ p, l.loanId ≠ "" :=
    fun p hp => hval p (List.take_subset i pages hp)
  have hlen : (pages.take i).length = i := by
    rw [List.length_take]
    exact Nat.min_eq_left hi
  obtain ⟨h1, h2, h3⟩ := scanPages_run ps (pages.take i) (initialScan ps liq0)
    hne2 hval2 (by simp [initialScan])
  refine ⟨?_, ?_, ?_⟩
  · rw [h1]
    rfl
  · rw [h2, hlen]
    simp [initialScan]
  · rw [h3, hlen]
    simp [initialScan]

/-- A first loan, eligible for liquidation, used in the C4 witness. -/
def loanW1 : Loan := { loanId := "W1", loanToken := "doc", maxLiquidatable := 3 }

/-- A second loan, not eligible, used in the C4 witness. -/
def loanW2 : Loan := { loanId := "W2", loanToken := "rbtc", maxLiquidatable := 0 }

/-- Witness for C4: a cycle of two one-loan pages with page size 2 collects
both entries as the insert-only union, and the terminating empty page
clears `positions`. -/
theorem C4_pagination_witness :
    (scanPages 2 (initialScan 2 []) ([[loanW1], [loanW2]].take 2)).positions
      = ([[loanW1], [loanW2]].take 2).flatten.foldl insertOnly []
  ∧ (scanOk 2 (scanPages 2 (initialScan 2 []) [[loanW1], [loanW2]]) []).positions = [] :=
  ⟨((C4_pagination 2 [[loanW1], [loanW2]] [] (by decide) (by decide)).1 2 (by decide)).1,
   (C4_pagination 2 [[loanW1], [loanW2]] [] (by decide) (by decide)).2.1⟩

/-! ## Lemmas about the liquidator state -/

theorem lookupId_eraseKey_self (m : PosMap) (k : String) :
    lookupId (eraseKey m k) k = none := by
  induction m with
  | nil => rfl
  | cons e rest ih =>
    obtain ⟨k1, l1⟩ := e
    simp only [eraseKey]
    by_cases h : k1 = k
    · rw [if_pos h]
      exact ih
    · rw [if_neg h]
      simp only [lookupId, if_neg h]
      exact ih

theorem lookupId_eraseKey_ne (m : PosMap) (k k2 : String) (h : k2 ≠ k) :
    lookupId (eraseKey m k) k2 = lookupId m k2 := by
  induction m with
  | nil => rfl
  | cons e rest ih =>
    obtain ⟨k1, l1⟩ := e
    simp only [eraseKey]
    by_cases h1 : k1 = k
    · rw [if_pos h1, ih]
      have h2 : ¬k1 = k2 := by
        rw [h1]
        intro e2
        exact h e2.symm
      simp only [lookupId, if_neg h2]
    · rw [if_neg h1]
      simp only [lookupId]
      by_cases h2 : k1 = k2
      · rw [if_pos h2, if_pos h2]
      · rw [if_neg h2, if_neg h2]
        exact ih

theorem busyContains_removeFromQueue (q : BusyQueue) (w id : String) :
    busyContains (removeFromQueue q w id) w id = false := by
  induction q with
  | nil => rfl
  | cons e rest ih =>
    simp only [removeFromQueue]
    by_cases h : e.1 = w ∧ e.2 = id
    · rw [if_pos h]
      exact ih
    · rw [if_neg h]
      simp only [busyContains, if_neg h]
      exact ih

/-! ## Claims about the Liquidator -/

/-- Claim C3: dispatching a candidate removes its `loanId` from
`liquidations` exactly once, unconditionally, at dispatch time — the
removal is performed inside `liquidate` itself, before the transaction's
outcome is known, it deletes exactly that one key (every other key is
unchanged), and neither `handleLiqSuccess` nor `handleLiqError` removes or
re-inserts anything in `liquidations`. -/
theorem C3_optimistic_removal (st : LiqState) (loanId wallet txHash : String)
    (success : Bool) (updatedMax : Nat) :
    (liquidate st loanId wallet).liquidations = eraseKey st.liquidations loanId
  ∧ lookupId (liquidate st loanId wallet).liquidations loanId = none
  ∧ (∀ k, k ≠ loanId →
      lookupId (liquidate st loanId wallet).liquidations k =
        lookupId st.liquidations k)
  ∧ (liquidateAndHandle st loanId wallet txHash success updatedMax).1.liquidations
      = (liquidate st loanId wallet).liquidations := by
  refine ⟨rfl, lookupId_eraseKey_self st.liquidations loanId, ?_, ?_⟩
  · intro k hk
    exact lookupId_eraseKey_ne st.liquidations loanId k hk
  · unfold liquidateAndHandle
    cases success <;> rfl

/-- Claim C6: the failure handler releases the wallet from the busy set
(the pair is no longer in the queue), and it sends an operator message if
and only if the re-queried `maxLiquidatable` is positive — in particular it
stays silent when the re-queried value is `0`. -/
theorem C6_failure_handling (st : LiqState) (wallet loanId : String)
    (updatedMax : Nat) :
    busyContains (handleLiqError st wallet loanId updatedMax).1.busy wallet loanId
      = false
  ∧ ((handleLiqError st wallet loanId updatedMax).2 ≠ [] ↔ 0 < updatedMax)
  ∧ (updatedMax = 0 → (handleLiqError st wallet loanId updatedMax).2 = []) := by
  refine ⟨busyContains_removeFromQueue st.busy wallet loanId, ?_, ?_⟩
  · unfold handleLiqError
    by_cases h : 0 < updatedMax
    · rw [if_pos h]
      simp [h]
    · rw [if_neg h]
      simp [h]
  · intro h
    subst h
    rfl

/-! ## Lemmas about the arbitrage decision -/

theorem startDecision_eq (amount p0 p1 threshold : ℚ)
    (h0 : 0 < p0) (h1 : 0 < p1) :
    startDecision amount p0 p1 threshold =
      if threshold ≤ |p0 - p1| / min p0 p1 * 100 then
        (if p0 ≤ p1 then .buyDoc p0 else .buyRbtc amount)
      else .noTrade := by
  unfold startDecision calcArbitrage
  rw [if_pos ⟨h0, h1⟩]
  by_cases hδ : threshold ≤ |p0 - p1| / min p0 p1 * 100
  · rw [if_pos hδ, if_pos hδ]
    by_cases hle : p0 ≤ p1
    · have hm : min p0 p1 = p0 := min_eq_left hle
      rw [hm, if_pos hle]
      show (if p0 ≠ 0 ∧ p0 = p0 then TradeDecision.buyDoc p0
            else if p0 ≠ 0 ∧ p0 = p1 then TradeDecision.buyRbtc amount
            else TradeDecision.noTrade) = TradeDecision.buyDoc p0
      rw [if_pos ⟨ne_of_gt h0, rfl⟩]
    · push_neg at hle
      have hm : min p0 p1 = p1 := min_eq_right (le_of_lt hle)
      rw [hm, if_neg (not_le.mpr hle)]
      show (if p1 ≠ 0 ∧ p1 = p0 then TradeDecision.buyDoc p0
            else if p1 ≠ 0 ∧ p1 = p1 then TradeDecision.buyRbtc amount
            else TradeDecision.noTrade) = TradeDecision.buyRbtc amount
      have hne : ¬(p1 ≠ 0 ∧ p1 = p0) := fun hx => absurd hx.2 (ne_of_lt hle)
      rw [if_neg hne, if_pos ⟨ne_of_gt h1, rfl⟩]
  · rw [if_neg hδ, if_neg hδ]

/-! ## Claims about the Arbitrage Engine -/

/-- Claim C5: for positive prices and a positive threshold, one round of
`start` triggers a trade if and only if
`|p0 - p1| / min p0 p1 * 100 ≥ threshold`, and the trade buys the side of
the smaller price: Doc (size `p0`) when the AMM quote `p0` is smaller,
RBtc when the oracle quote `p1` is smaller. In particular with prices 100
and 102 a threshold of 2.0 triggers a trade on the side of price 100, and
a threshold of 2.1 triggers none. -/
theorem C5_threshold_decision (amount p0 p1 threshold : ℚ)
    (h0 : 0 < p0) (h1 : 0 < p1) (_ht : 0 < threshold) :
    (startDecision amount p0 p1 threshold ≠ .noTrade ↔
      threshold ≤ |p0 - p1| / min p0 p1 * 100)
  ∧ (p0 < p1 → threshold ≤ |p0 - p1| / min p0 p1 * 100 →
      startDecision amount p0 p1 threshold = .buyDoc p0)
  ∧ (p1 < p0 → threshold ≤ |p0 - p1| / min p0 p1 * 100 →
      startDecision amount p0 p1 threshold = .buyRbtc amount)
  ∧ startDecision amount 100 102 2 = .buyDoc 100
  ∧ startDecision amount 100 102 (21/10) = .noTrade := by
  rw [startDecision_eq amount p0 p1 threshold h0 h1]
  refine ⟨?_, ?_, ?_, ?_, ?_⟩
  · by_cases hδ : threshold ≤ |p0 - p1| / min p0 p1 * 100
    · rw [if_pos hδ]
      constructor
      · intro _
        exact hδ
      · intro _
        by_cases hle : p0 ≤ p1 <;> simp [hle]
    · rw [if_neg hδ]
      simp [hδ]
  · intro hlt hδ
    rw [if_pos hδ, if_pos (le_of_lt hlt)]
  · intro hlt hδ
    rw [if_pos hδ, if_neg (not_le.mpr hlt)]
  · norm_num [startDecision, calcArbitrage]
  · norm_num [startDecision, calcArbitrage]

/-- Witness for C5: the spec's boundary vector — prices 100 and 102 trigger
the Doc-side trade at threshold 2.0 and no trade at threshold 2.1. -/
theorem C5_threshold_decision_witness :
    startDecision (1/100) 100 102 2 = TradeDecision.buyDoc 100
  ∧ startDecision (1/100) 100 102 (21/10) = TradeDecision.noTrade :=
  ⟨(C5_threshold_decision (1/100) 100 102 2
      (by norm_num) (by norm_num) (by norm_num)).2.2.2.1,
   (C5_threshold_decision (1/100) 100 102 (21/10)
      (by norm_num) (by norm_num) (by norm_num)).2.2.2.2⟩

/-- Claim C7 (code bug): the claim says the persisted profit equals the
actual output minus the input times the oracle-implied rate (5 for
`fromAmount` 1, rate 100, `toAmount` 105). `calculateProfit` does compute
that formula when it receives a `btcPriceFeed` — but its only call site,
`Arbitrage.start` line 54, is `this.calculateProfit(res)` with a single
argument, so `btcPriceFeed` is `undefined`, `priceFeed` is NaN, and the
computed and persisted profit is NaN (`none`), never 5. -/
theorem C7_profit_persisted_nan :
    calculateProfitAsCalled true 1 105 = none
  ∧ calculateProfit (1/100) (some 1) true 1 105 = some 5 := by
  constructor
  · rfl
  · norm_num [calculateProfit]

/-- Claim C8 counterexample: with AMM quote 102 and oracle quote 100 at
threshold 2, a trade is triggered in the buy-RBtc direction with submitted
size `this.amount = 0.010`, which is not the smaller of the two quotes
(`min 102 100 = 100`) — so the claim that the submitted size is the smaller
quote in both directions is false. -/
theorem C8_size_not_min :
    startDecision (1/100) 102 100 2 = TradeDecision.buyRbtc (1/100)
  ∧ (1/100 : ℚ) ≠ min 102 100 := by
  constructor
  · norm_num [startDecision, calcArbitrage]
  · have hm : min (102:ℚ) 100 = 100 := min_eq_right (by norm_num)
    rw [hm]
    norm_num

/-- Claim C8 (amended): in the direction where the AMM quote is the smaller
price (`p0 ≤ p1`), the submitted trade size is the AMM quote `p0`; in the
direction where the oracle quote is smaller (`p1 < p0`), the submitted size
is the fixed notional `this.amount`, not the smaller of the two quotes. -/
theorem C8_trade_size (amount p0 p1 threshold : ℚ) :
    (∀ s, startDecision amount p0 p1 threshold = .buyDoc s → s = p0 ∧ p0 ≤ p1)
  ∧ (∀ s, startDecision amount p0 p1 threshold = .buyRbtc s →
      s = amount ∧ p1 < p0) := by
  constructor
  · intro s hs
    by_cases hpos : 0 < p0 ∧ 0 < p1
    · rw [startDecision_eq amount p0 p1 threshold hpos.1 hpos.2] at hs
      by_cases hδ : threshold ≤ |p0 - p1| / min p0 p1 * 100
      · rw [if_pos hδ] at hs
        by_cases hle : p0 ≤ p1
        · rw [if_pos hle] at hs
          injection hs with he
          exact ⟨he.symm, hle⟩
        · rw [if_neg hle] at hs
          exact absurd hs (by simp)
      · rw [if_neg hδ] at hs
        exact absurd hs (by simp)
    · unfold startDecision at hs
      rw [if_neg hpos] at hs
      exact absurd hs (by simp)
  · intro s hs
    by_cases hpos : 0 < p0 ∧ 0 < p1
    · rw [startDecision_eq amount p0 p1 threshold hpos.1 hpos.2] at hs
      by_cases hδ : threshold ≤ |p0 - p1| / min p0 p1 * 100
      · rw [if_pos hδ] at hs
        by_cases hle : p0 ≤ p1
        · rw [if_pos hle] at hs
          exact absurd hs (by simp)
        · rw [if_neg hle] at hs
          injection hs with he
          exact ⟨he.symm, not_le.mp hle⟩
      · rw [if_neg hδ] at hs
        exact absurd hs (by simp)
    · unfold startDecision at hs
      rw [if_neg hpos] at hs
      exact absurd hs (by simp)

/-- Claim C9 (code bug): the claim says a missing or malformed conversion
path (length not exactly 3) aborts the trade for the round without
escalation — no swap, no operator message — and the round ends normally so
the loop continues. In the source's abort branch no swap is indeed
submitted and no operator message is sent, but the branch's logging line
reads `contract._address` with `contract` undeclared in `sendLiquidity`,
so the callback throws a ReferenceError before `resolve()`: the promise
never settles, the `await` in `start` blocks forever, and the round never
ends — the intended `return resolve()` on the next line is unreachable. -/
theorem C9_malformed_path_throws (outcome : SwapOutcome) :
    (∀ p : List String, p.length ≠ 3 →
      sendLiquidity (some p) outcome =
        { swapSubmitted := false, operatorMsgs := [],
          uncaughtError := some "ReferenceError: contract is not defined",
          resolvedWith := none })
  ∧ sendLiquidity none outcome =
      { swapSubmitted := false, operatorMsgs := [],
        uncaughtError := some "ReferenceError: contract is not defined",
        resolvedWith := none } := by
  refine ⟨?_, rfl⟩
  intro p hp
  simp only [sendLiquidity]
  rw [if_pos hp]

end Sovryn
